import Mathlib

/-!
Shallow embedding of `src/Meeting_AIWord_detect/meeting_realtime.py`
(classes `ThaiMeetingSummarizer`, `RealTimeAugmenter`) and of
`extract_keywords` from `src/PW/main.py`, together with theorems checking
the natural-language specification against this embedding.

Python strings are modelled as Lean `String` (a list of Unicode code
points, so Python `len` is `String.length`); Python lists as `List`;
`dict` insertion order is modelled explicitly by association lists.
-/

namespace Meeting

/-- Whitespace as stripped by Python `str.strip()` / matched by `\s`
(the ASCII whitespace characters; the inputs of this program contain no
exotic Unicode spaces). -/
def isSpaceChar (c : Char) : Bool :=
  c = ' ' || c = '\t' || c = '\n' || c = '\r' || c = '\x0b' || c = '\x0c'

/-- Python `str.strip()` on the character list: drop whitespace from both ends. -/
def pyStripL (l : List Char) : List Char :=
  ((l.dropWhile isSpaceChar).reverse.dropWhile isSpaceChar).reverse

/-- Python `text.strip()`. -/
def pyStrip (s : String) : String := String.mk (pyStripL s.data)

/-- Does `pat` occur at the very start of `text`? (helper for substring
search and for the hand-compiled regular expressions below). -/
def matchHere : List Char → List Char → Bool
  | [], _ => true
  | _ :: _, [] => false
  | p :: ps, c :: cs => p = c && matchHere ps cs

/-- Does `needle` occur somewhere in the list? -/
def hasSub (needle : List Char) : List Char → Bool
  | [] => needle.isEmpty
  | c :: cs => matchHere needle (c :: cs) || hasSub needle cs

/-- Python's `needle in hay` on strings (substring containment). -/
def pyIn (needle hay : String) : Bool := hasSub needle.data hay.data

/-- Source set `self.topic_stopwords` (meeting_realtime.py:40-43; a Python `set`,
modelled by list membership — the duplicated entries are harmless). -/
def topic_stopwords : List String :=
  ["ครับ","ค่ะ","คะ","เรา","เขา","ที่","ว่า","และ","หรือ","ก็","คือ","มัน","ได้","ๆ","นะ","ค่ะ","ครับ",
   "เอ่อ","อ่า","แบบว่า","คือว่า","ก็คือ","แบบ"]

/-- Source list `self.decision_triggers` (meeting_realtime.py:46). -/
def decision_triggers : List String :=
  ["ตัดสินใจ", "อนุมัติ", "ยืนยัน", "สรุปว่า", "ข้อสรุป", "ตกลงว่า"]

/-- Source list `self.action_triggers` (meeting_realtime.py:47). -/
def action_triggers : List String :=
  ["มอบหมาย", "รับผิดชอบ", "ต้องทำ", "จะทำ", "ดำเนินการ", "ภายใน", "ก่อน", "ส่ง", "ติดตาม", "เดดไลน์", "กำหนดส่ง"]

/-- Source list `self.risk_triggers` (meeting_realtime.py:48). -/
def risk_triggers : List String :=
  ["ความเสี่ยง", "เสี่ยง", "ปัญหา", "ติดขัด", "ค้าง", "ยังไม่เสร็จ", "รอ", "อาจ", "ขึ้นอยู่กับ", "บล็อค"]

/-- Method `_match_any` (meeting_realtime.py:95-96): `any(t in text for t in triggers)`. -/
def match_any (text : String) (triggers : List String) : Bool :=
  triggers.any (fun t => pyIn t text)

/-- A delimiter character of the fallback sentence splitter
`re.split(r"[\.!\?\n]|[ ]{2,}|[|]", text)` (single-character arms). -/
def sentDelim (c : Char) : Bool :=
  c = '.' || c = '!' || c = '?' || c = '\n' || c = '|'

/-- The fallback sentence split of `_thai_sentences` (meeting_realtime.py:71):
`re.split(r"[\.!\?\n]|[ ]{2,}|[|]", text)`. Splits on `.` `!` `?` newline
and `|`, and on any maximal run of two or more spaces (the greedy
`[ ]{2,}`).  `cur` accumulates the current fragment in reverse;
`skipping` is true while consuming the tail of a space run whose fragment
was already flushed (the structural-recursion rendering of "drop the
whole run") — a single space not followed by another space is ordinary
fragment content. -/
def splitRawAux : List Char → Bool → List Char → List (List Char)
  | [], _, cur => [cur.reverse]
  | c :: cs, skipping, cur =>
      if skipping && c = ' ' then splitRawAux cs true cur
      else if sentDelim c then cur.reverse :: splitRawAux cs false []
      else if c = ' ' && (match cs with | c2 :: _ => decide (c2 = ' ') | [] => false) then
        cur.reverse :: splitRawAux cs true []
      else splitRawAux cs false (c :: cur)

/-- Raw fragments produced by the fallback sentence splitter (before the
strip-and-drop-empties comprehension of `_thai_sentences`). -/
def fallbackSents (s : String) : List String :=
  (splitRawAux s.data false []).map String.mk

/-- Fallback word split of `_thai_words` (meeting_realtime.py:81):
`re.split(r"\s+", text)`; splitting on every single whitespace character
instead of on maximal runs only adds extra empty fragments, which the
comprehension filter of `_thai_words` removes either way. -/
def splitWSAux : List Char → List Char → List (List Char)
  | [], cur => [cur.reverse]
  | c :: cs, cur =>
      if isSpaceChar c then cur.reverse :: splitWSAux cs []
      else splitWSAux cs (c :: cur)

/-- The raw fallback tokenizer of `_thai_words`. -/
def fallbackWords (s : String) : List String :=
  (splitWSAux s.data []).map String.mk

/-- Method `_thai_words` (meeting_realtime.py:74-81), parameterized by the raw
tokenizer `tok` (PyThaiNLP's `word_tokenize` when present, else
`fallbackWords`): `[w for w in tok(text) if w.strip()]`. -/
def thai_words (tok : String → List String) (text : String) : List String :=
  (tok text).filter (fun w => !(pyStrip w).isEmpty)

/-- Method `_thai_sentences` (meeting_realtime.py:64-72), parameterized by the raw
splitter `sentf` (PyThaiNLP's `sent_tokenize` when present, else
`fallbackSents`): `[s.strip() for s in sentf(text) if s.strip()]`. -/
def thai_sentences (sentf : String → List String) (text : String) : List String :=
  ((sentf text).map pyStrip).filter (fun s => !s.isEmpty)

/-- One step of `freq[w] = freq.get(w, 0) + 1` on an insertion-ordered
association list (a Python dict keeps the position of an existing key and
appends a new key at the end). -/
def bump : List (String × Nat) → String → List (String × Nat)
  | [], w => [(w, 1)]
  | (k, n) :: rest, w => if k = w then (k, n + 1) :: rest else (k, n) :: bump rest w

/-- The frequency loop of `_extract_topics` (meeting_realtime.py:85-91):
skip stop-words and tokens of length < 2, count the rest. -/
def freqFold : List String → List (String × Nat) → List (String × Nat)
  | [], acc => acc
  | w :: ws, acc =>
      if topic_stopwords.contains w then freqFold ws acc
      else if w.length < 2 then freqFold ws acc
      else freqFold ws (bump acc w)

/-- Stable insertion into a count-descending list: an earlier entry stays
in front of a later one with the same count, exactly as Python's stable
`sorted(..., key=lambda x: x[1], reverse=True)` keeps ties in input order. -/
def insDesc (p : String × Nat) : List (String × Nat) → List (String × Nat)
  | [] => [p]
  | q :: qs => if p.2 < q.2 then q :: insDesc p qs else p :: q :: qs

/-- Stable sort by count descending (the deterministic behaviour of
`sorted(freq.items(), key=lambda x: x[1], reverse=True)`). -/
def sortDesc : List (String × Nat) → List (String × Nat)
  | [] => []
  | p :: ps => insDesc p (sortDesc ps)

/-- Method `_extract_topics` (meeting_realtime.py:83-93), parameterized by the raw
tokenizer: count the filtered tokens, sort by count descending (stable),
take the first `topn` tokens. -/
def extract_topics (tok : String → List String) (all_text : String) (topn : Nat) : List String :=
  ((sortDesc (freqFold (thai_words tok all_text) [])).take topn).map Prod.fst

/-- Source list `self.assignee_patterns` (meeting_realtime.py:51-53): the honorific of
each pattern `(คุณ[^\s]+)`, `(พี่[^\s]+)`, `(นาย[^\s]+)`, `(นาง[^\s]+)`,
`(นางสาว[^\s]+)`, in source order. -/
def assignee_honorifics : List String := ["คุณ", "พี่", "นาย", "นาง", "นางสาว"]

/-- Matching `hon[^\s]+` at the start of `text`: the honorific followed by a
non-empty greedy run of non-whitespace characters. -/
def honAt (hon : List Char) (text : List Char) : Option (List Char) :=
  if matchHere hon text then
    let rest := (text.drop hon.length).takeWhile (fun c => !isSpaceChar c)
    if rest.isEmpty then none else some (hon ++ rest)
  else none

/-- Python `re.search`: try the position matcher `f` at every start position from
left to right and return the first match. -/
def searchFrom (f : List Char → Option (List Char)) : List Char → Option (List Char)
  | [] => f []
  | c :: cs =>
      match f (c :: cs) with
      | some r => some r
      | none => searchFrom f cs

/-- First pattern of an ordered pattern list that matches anywhere
(the `for pat in patterns: m = re.search(pat, sentence)` loops). -/
def firstSome : List (List Char → Option (List Char)) → List Char → Option (List Char)
  | [], _ => none
  | f :: fs, l =>
      match searchFrom f l with
      | some r => some r
      | none => firstSome fs l

/-- Method `_extract_assignee` (meeting_realtime.py:98-103). -/
def extract_assignee (sentence : String) : String :=
  match firstSome (assignee_honorifics.map (fun h => honAt h.data)) sentence.data with
  | some r => String.mk r
  | none => "ไม่ระบุ"

/-- Splitting pair `(takeWhile, dropWhile)` over whitespace (the greedy `\s*`). -/
def spacesTake (l : List Char) : List Char × List Char :=
  (l.takeWhile isSpaceChar, l.dropWhile isSpaceChar)

/-- Splitting pair `(takeWhile, dropWhile)` over digits (the greedy `\d+`). -/
def digitsTake (l : List Char) : List Char × List Char :=
  (l.takeWhile Char.isDigit, l.dropWhile Char.isDigit)

/-- Greedy `\d{lo,hi}` followed by a non-digit (or the pattern end): take at
most `hi` digits, fail below `lo`.  The next literal in the patterns using
this is `/` or nothing, so no backtracking case is lost. -/
def boundedDigits (lo hi : Nat) (l : List Char) : Option (List Char × List Char) :=
  let ds := (l.takeWhile Char.isDigit).take hi
  if ds.length < lo then none else some (ds, l.drop ds.length)

/-- Matching `ภายใน\s*\d+\s*(วัน|สัปดาห์|เดือน)` (due pattern 1,
meeting_realtime.py:56) at the start of `l`; result is `m.group(1)`,
the whole match. -/
def duePat1At (l : List Char) : Option (List Char) :=
  if matchHere "ภายใน".data l then
    let r0 := l.drop "ภายใน".data.length
    let sp1 := (spacesTake r0).1
    let r1 := (spacesTake r0).2
    let ds := (digitsTake r1).1
    let r2 := (digitsTake r1).2
    if ds.isEmpty then none
    else
      let sp2 := (spacesTake r2).1
      let r3 := (spacesTake r2).2
      if matchHere "วัน".data r3 then some ("ภายใน".data ++ sp1 ++ ds ++ sp2 ++ "วัน".data)
      else if matchHere "สัปดาห์".data r3 then some ("ภายใน".data ++ sp1 ++ ds ++ sp2 ++ "สัปดาห์".data)
      else if matchHere "เดือน".data r3 then some ("ภายใน".data ++ sp1 ++ ds ++ sp2 ++ "เดือน".data)
      else none
  else none

/-- Matching `ก่อน\s*วันที่\s*\d{1,2}/\d{1,2}/\d{2,4}` (due pattern 2,
meeting_realtime.py:57) at the start of `l`. -/
def duePat2At (l : List Char) : Option (List Char) :=
  if matchHere "ก่อน".data l then
    let r0 := l.drop "ก่อน".data.length
    let sp1 := (spacesTake r0).1
    let r1 := (spacesTake r0).2
    if matchHere "วันที่".data r1 then
      let r2 := r1.drop "วันที่".data.length
      let sp2 := (spacesTake r2).1
      let r3 := (spacesTake r2).2
      match boundedDigits 1 2 r3 with
      | none => none
      | some (d1, r4) =>
        if matchHere ['/'] r4 then
          match boundedDigits 1 2 (r4.drop 1) with
          | none => none
          | some (d2, r5) =>
            if matchHere ['/'] r5 then
              match boundedDigits 2 4 (r5.drop 1) with
              | none => none
              | some (d3, _) =>
                some ("ก่อน".data ++ sp1 ++ "วันที่".data ++ sp2 ++ d1 ++ ['/'] ++ d2 ++ ['/'] ++ d3)
            else none
        else none
    else none
  else none

/-- Matching `ภายใน\s*สัปดาห์นี้|ภายใน\s*เดือนนี้|สิ้นเดือนนี้|สัปดาห์หน้า|เดือนหน้า`
(due pattern 3, meeting_realtime.py:58) at the start of `l`, alternatives
in source order. -/
def duePat3At (l : List Char) : Option (List Char) :=
  match (if matchHere "ภายใน".data l then
           let sp := (spacesTake (l.drop "ภายใน".data.length)).1
           let r := (spacesTake (l.drop "ภายใน".data.length)).2
           if matchHere "สัปดาห์นี้".data r then some ("ภายใน".data ++ sp ++ "สัปดาห์นี้".data)
           else if matchHere "เดือนนี้".data r then some ("ภายใน".data ++ sp ++ "เดือนนี้".data)
           else none
         else none) with
  | some x => some x
  | none =>
      if matchHere "สิ้นเดือนนี้".data l then some "สิ้นเดือนนี้".data
      else if matchHere "สัปดาห์หน้า".data l then some "สัปดาห์หน้า".data
      else if matchHere "เดือนหน้า".data l then some "เดือนหน้า".data
      else none

/-- Method `_extract_due` (meeting_realtime.py:105-110): the due patterns tried in
source order, first search hit wins. -/
def extract_due (sentence : String) : String :=
  match searchFrom duePat1At sentence.data with
  | some r => String.mk r
  | none =>
    match searchFrom duePat2At sentence.data with
    | some r => String.mk r
    | none =>
      match searchFrom duePat3At sentence.data with
      | some r => String.mk r
      | none => "ไม่ระบุ"

/-- One `action_items` entry (meeting_realtime.py:128-132). -/
structure ActionItem where
  assignee : String
  task : String
  due : String
deriving DecidableEq, Repr

/-- The dict appended for an action-classified sentence. -/
def mkActionItem (sent : String) : ActionItem :=
  { assignee := extract_assignee sent, task := sent, due := extract_due sent }

/-- The sentence-classification loop of `summarize_offline`
(meeting_realtime.py:122-134): each sentence of the stream is tested
independently against the three trigger vocabularies, appending to the
respective lists (modelled head-first, which preserves the append order). -/
def classify : List String → List String × List ActionItem × List String
  | [] => ([], [], [])
  | s :: rest =>
      let r := classify rest
      ((if match_any s decision_triggers then s :: r.1 else r.1),
       (if match_any s action_triggers then mkActionItem s :: r.2.1 else r.2.1),
       (if match_any s risk_triggers then s :: r.2.2 else r.2.2))

/-- An utterance log: the `(timestamp, text)` pairs of
`ThaiMeetingSummarizer.utterances` (timestamps as `Nat`). -/
abbrev Utterances := List (Nat × String)

/-- The sentence stream of the classification loop: all sentences of all
utterances, in chronological order. -/
def sentenceStream (sentf : String → List String) (uts : Utterances) : List String :=
  (uts.map Prod.snd).flatMap (thai_sentences sentf)

/-- The highlight condition of meeting_realtime.py:138: length ≥ 25 and
(a decision or action trigger occurs, or length > 60). -/
def highlightCond (text : String) : Bool :=
  25 ≤ text.length && (match_any text (decision_triggers ++ action_triggers) || 60 < text.length)

/-- Source expression `"\n".join([t for _, t in self.utterances]).strip()` (meeting_realtime.py:114). -/
def allText (uts : Utterances) : String :=
  pyStrip (String.intercalate "\n" (uts.map Prod.snd))

/-- The summary dict of `summarize_offline` (meeting_realtime.py:142-149). -/
structure SummaryDoc where
  summary : String
  topics : List String
  decisions : List String
  action_items : List ActionItem
  risks_or_followups : List String
  highlights : List String
deriving DecidableEq, Repr

/-- Method `ThaiMeetingSummarizer.summarize_offline` (meeting_realtime.py:112-150),
parameterized by the raw tokenizer and sentence splitter (PyThaiNLP when
installed, the fallbacks otherwise). -/
def summarize_offline (tok sentf : String → List String) (uts : Utterances) : SummaryDoc :=
  let cls := classify (sentenceStream sentf uts)
  { summary := "สรุปอัตโนมัติแบบออฟไลน์ (heuristic) จากการสนทนา",
    topics := extract_topics tok (allText uts) 6,
    decisions := cls.1.take 10,
    action_items := cls.2.1.take 20,
    risks_or_followups := cls.2.2.take 10,
    highlights := ((uts.map Prod.snd).filter highlightCond).take 8 }

/-- A parsed JSON value, as returned by `json.loads` on the Gemini
response text. -/
inductive Json where
  | null
  | bool (b : Bool)
  | num (n : Int)
  | str (s : String)
  | arr (xs : List Json)
  | obj (kvs : List (String × Json))

/-- Python truthiness of a parsed JSON value (the `if data:` test). -/
def Json.truthy : Json → Bool
  | .null => false
  | .bool b => b
  | .num n => n != 0
  | .str s => !s.isEmpty
  | .arr xs => !xs.isEmpty
  | .obj kvs => !kvs.isEmpty

/-- A Python exception escaping a function uncaught.  The only such
exception on the paths modelled here is the `TypeError` raised by
`genai.configure(api_key==api_key)` (meeting_realtime.py:156): the
source's `==` makes the argument the boolean `True`, passed positionally
to the keyword-only `configure` API. -/
inductive PyError where
  | typeError

/-- The environment of `summarize_with_gemini` (meeting_realtime.py:153-154):
whether `google.generativeai` imported (`HAS_GEMINI`) and whether
`GOOGLE_API_KEY` is set to a truthy value. -/
structure GeminiEnv where
  hasGemini : Bool
  apiKeySet : Bool

/-- Method `ThaiMeetingSummarizer.summarize_with_gemini`
(meeting_realtime.py:152-179): `None` without library+key; otherwise the
unguarded `genai.configure(api_key==api_key)` call on line 156 — run
outside, and before, the `try` of lines 174-179 — raises `TypeError`
(a positional boolean to a keyword-only API), so the enabled path never
reaches the guarded `generate_content` + `json.loads` block and the
exception escapes to the caller. -/
def summarize_with_gemini (env : GeminiEnv) : Except PyError (Option Json) :=
  if !(env.hasGemini && env.apiKeySet) then .ok none
  else .error PyError.typeError

/-- What the caller of `summarize` receives when no exception escapes:
either a raw parsed Gemini JSON value or the offline heuristic document. -/
inductive SummarizeResult where
  | fromGemini (v : Json)
  | offline (d : SummaryDoc)

/-- Method `ThaiMeetingSummarizer.summarize` (meeting_realtime.py:181-186):
`summarize_with_gemini()` is called with no exception handler, so an
exception it raises propagates to the caller; a returned truthy value
would be passed through (`if data:`), anything else falls back to the
heuristic result. -/
def summarize (tok sentf : String → List String) (env : GeminiEnv)
    (prefer_gemini : Bool) (uts : Utterances) : Except PyError SummarizeResult :=
  if prefer_gemini then
    match summarize_with_gemini env with
    | .error e => .error e
    | .ok (some data) =>
        if data.truthy then .ok (.fromGemini data)
        else .ok (.offline (summarize_offline tok sentf uts))
    | .ok none => .ok (.offline (summarize_offline tok sentf uts))
  else .ok (.offline (summarize_offline tok sentf uts))

/-- The shared mutable state of `RealTimeAugmenter` (meeting_realtime.py:204-207,
217): the display deque (`maxlen=5`), the full log, the burst-duplicate
guard, and the summarizer's own log.  `listening` models the lifecycle
signal of the background listener: `run` flips it to `false` via
`stop_listening(wait_for_stop=False)` on shutdown (the flag itself lives in
the external `speech_recognition` library; modelled from the spec's
`ShuttingDown` state, §4.5). -/
structure AugState where
  live_transcript : List String
  all_utterances : Utterances
  last_text : Option String
  summ_utts : Utterances
  listening : Bool
deriving DecidableEq, Repr

/-- The state right after `RealTimeAugmenter.__init__` + the start of
`listen_in_background`. -/
def initState : AugState :=
  { live_transcript := [], all_utterances := [], last_text := none,
    summ_utts := [], listening := true }

/-- Python `deque(maxlen=5).append`: keep only the last 5 entries. -/
def dequeAppend (l : List String) (x : String) : List String :=
  (l ++ [x]).drop ((l ++ [x]).length - 5)

/-- Method `RealTimeAugmenter._process_text` (meeting_realtime.py:268-281). -/
def process_text (s : AugState) (now : Nat) (raw : String) : AugState :=
  let text := pyStrip raw
  if text.isEmpty then s
  else if (match s.last_text with | some t => text == t | none => false) then s
  else
    { s with
      last_text := some text,
      live_transcript := dequeAppend s.live_transcript text,
      all_utterances := s.all_utterances ++ [(now, text)],
      summ_utts := s.summ_utts ++ [(now, text)] }

/-- A recognition outcome delivered to `_audio_callback`: recognized text,
`sr.UnknownValueError`, or `sr.RequestError e`. -/
inductive RecogResult where
  | ok (text : String)
  | unknownValue
  | requestError (e : String)
deriving DecidableEq, Repr

/-- Method `RealTimeAugmenter._audio_callback` (meeting_realtime.py:284-293). -/
def audio_callback (s : AugState) (now : Nat) (r : RecogResult) : AugState :=
  match r with
  | .ok text => process_text s now text
  | .unknownValue => s
  | .requestError e =>
      { s with live_transcript :=
          dequeAppend s.live_transcript ("[ข้อผิดพลาดเชื่อมต่อ: " ++ e ++ "]") }

/-- The shutdown signal in `run` (meeting_realtime.py:360):
`stop_listening(wait_for_stop=False)`.  It only flips the listener flag;
nothing else of the state is touched. -/
def initiate_shutdown (s : AugState) : AugState :=
  { s with listening := false }

end Meeting

namespace PW

/-- Source set `keyword_tags` (main.py:162). -/
def keyword_tags : List String := ["NOUN", "PROPN", "VERB", "ADJ"]

/-- The English stop-word set of `extract_keywords` (main.py:183). -/
def stop_words : List String :=
  ["the", "a", "an", "and", "or", "but", "in", "on", "at", "to", "for", "of", "with", "by"]

/-- Python `text.split()` (split on whitespace runs, no empty fragments) —
used by the English branch and the exception fallback of `extract_keywords`. -/
def pySplit (text : String) : List String :=
  (Meeting.splitWSAux text.data []).map String.mk |>.filter (fun w => !w.isEmpty)

/-- Lowercasing as used for the case-insensitive checks (`word.lower()`,
`keyword.lower()`); the affected words are Thai (caseless) or ASCII. -/
def pyLower (s : String) : String := String.mk (s.data.map Char.toLower)

/-- The Thai candidate loop of `extract_keywords` (main.py:165-167): for
each `(word, tag)` with `tag in keyword_tags and len(word.strip()) > 1`,
append `word.strip()`. -/
def thaiCands (tags : List (String × String)) : List String :=
  (tags.filter (fun p => keyword_tags.contains p.2 && 1 < (Meeting.pyStrip p.1).length)).map
    (fun p => Meeting.pyStrip p.1)

/-- The dedup loop of `extract_keywords` (main.py:169-175): skip a keyword
whose lowercase form was already seen, else keep it and record the
lowercase form (`seen` is a Python set, modelled by list membership). -/
def dedupLowerAux (seen : List String) : List String → List String
  | [] => []
  | k :: ks =>
      if seen.contains (pyLower k) then dedupLowerAux seen ks
      else k :: dedupLowerAux (pyLower k :: seen) ks

/-- Python `list(set(keywords))` of the English branch (main.py:186).  CPython's
set iteration order is unspecified; it is modelled here as first-occurrence
order, which is faithful in length and membership — no claim depends on
the order of the English branch. -/
def pySetList (seen : List String) : List String → List String
  | [] => []
  | k :: ks => if seen.contains k then pySetList seen ks else k :: pySetList (k :: seen) ks

/-- Function `extract_keywords` (main.py:150-191), parameterized by the external
`word_tokenize` + `pos_tag` pair (`tagger`); `tagger text = none` models
the two PyThaiNLP calls raising, which the bare `except` turns into the
`text.split()[:10]` fallback.  The English branch performs no fallible
call, so the `except` is unreachable there. -/
def extract_keywords (tagger : String → Option (List (String × String)))
    (text : String) (language : String) : List String :=
  if (Meeting.pyStrip text).isEmpty then []
  else if language = "th" then
    match tagger text with
    | some tags => (dedupLowerAux [] (thaiCands tags)).take 10
    | none => (pySplit text).take 10
  else
    (pySetList []
      ((pySplit text).filter
        (fun w => 3 < w.length && !stop_words.contains (pyLower w)))).take 10

end PW

namespace Meeting

/-- The token filter of the topic pipeline, as one predicate: keep a token
iff it is not a stop-word and not shorter than 2 characters. -/
def keepTok (w : String) : Bool :=
  !(topic_stopwords.contains w) && decide (2 ≤ w.length)

/-- Append a word unless already present (first-occurrence collector). -/
def addNew (acc : List String) (w : String) : List String :=
  if acc.contains w then acc else acc ++ [w]

/-- The distinct elements of a list in first-occurrence order. -/
def firstOcc (l : List String) : List String := l.foldl addNew []

/-- The frequency table described by the spec: the distinct tokens in
first-occurrence order, each with its number of occurrences. -/
def freqTable (l : List String) : List (String × Nat) :=
  (firstOcc l).map (fun w => (w, l.count w))

/-- The topic pipeline in the spec's words (claim C6): filter the token
stream, count frequencies, rank by descending count with ties broken by
first occurrence order, take the first 6. -/
def specTopics (stream : List String) : List String :=
  ((sortDesc (freqTable (stream.filter keepTok))).take 6).map Prod.fst

/-- The highlight qualification in the claim's words (C7): length ≥ 25 and
(some decision trigger occurs, or some action trigger occurs, or
length > 60). -/
def specHighlight (t : String) : Bool :=
  decide (25 ≤ t.length) &&
    (decision_triggers.any (fun tr => pyIn tr t) ||
     action_triggers.any (fun tr => pyIn tr t) ||
     decide (60 < t.length))

/-- The recent-window invariant of claim C4: the display window is a
suffix of the text sequence of the full log, and holds at most 5 entries. -/
def windowInv (s : AugState) : Prop :=
  (∃ t, t ++ s.live_transcript = s.all_utterances.map Prod.snd) ∧
    s.live_transcript.length ≤ 5

end Meeting

namespace Meeting

/-- C2.
For every utterance log, the heuristic summary satisfies the five list
caps (topics ≤ 6, decisions ≤ 10, action items ≤ 20, risks ≤ 10,
highlights ≤ 8), and each capped field is exactly the truncation of the
full candidate list of its category, i.e. the cap is applied only after
the complete candidate list has been computed. -/
theorem claim_C2 (tok sentf : String → List String) (uts : Utterances) :
    (summarize_offline tok sentf uts).topics.length ≤ 6 ∧
    (summarize_offline tok sentf uts).decisions.length ≤ 10 ∧
    (summarize_offline tok sentf uts).action_items.length ≤ 20 ∧
    (summarize_offline tok sentf uts).risks_or_followups.length ≤ 10 ∧
    (summarize_offline tok sentf uts).highlights.length ≤ 8 ∧
    (summarize_offline tok sentf uts).topics
      = ((sortDesc (freqFold (thai_words tok (allText uts)) [])).map Prod.fst).take 6 ∧
    (summarize_offline tok sentf uts).decisions
      = (classify (sentenceStream sentf uts)).1.take 10 ∧
    (summarize_offline tok sentf uts).action_items
      = (classify (sentenceStream sentf uts)).2.1.take 20 ∧
    (summarize_offline tok sentf uts).risks_or_followups
      = (classify (sentenceStream sentf uts)).2.2.take 10 ∧
    (summarize_offline tok sentf uts).highlights
      = ((uts.map Prod.snd).filter highlightCond).take 8 := by
  refine ⟨?_, ?_, ?_, ?_, ?_, ?_, rfl, rfl, rfl, rfl⟩
  · simp only [summarize_offline, extract_topics, List.length_map]
    exact List.length_take_le _ _
  · exact List.length_take_le _ _
  · exact List.length_take_le _ _
  · exact List.length_take_le _ _
  · exact List.length_take_le _ _
  · simp [summarize_offline, extract_topics, List.map_take]

/-- C7.
The highlights field consists of exactly the whole utterance texts of
length ≥ 25 that contain some decision or action trigger substring or
have length > 60, in chronological (append) order, truncated to the
first 8. -/
theorem claim_C7 (tok sentf : String → List String) (uts : Utterances) :
    (summarize_offline tok sentf uts).highlights
      = ((uts.map Prod.snd).filter specHighlight).take 8 := by
  have h : ∀ t, highlightCond t = specHighlight t := by
    intro t
    simp [highlightCond, specHighlight, match_any, List.any_append, Bool.or_assoc]
  simp only [summarize_offline]
  rw [List.filter_congr (fun t _ => h t)]

/-- C3.
`_process_text` rejects blank input and immediate duplicates without
touching any state, and processing the same text twice in direct
succession (from a state where the first call is accepted) yields exactly
one new entry in the full log, the summarizer's log, and the window. -/
theorem claim_C3 (s : AugState) (now₁ now₂ : Nat) (raw : String) :
    ((pyStrip raw).isEmpty = true → process_text s now₁ raw = s) ∧
    (s.last_text = some (pyStrip raw) → process_text s now₁ raw = s) ∧
    ((pyStrip raw).isEmpty = false → s.last_text ≠ some (pyStrip raw) →
      process_text (process_text s now₁ raw) now₂ raw = process_text s now₁ raw ∧
      (process_text (process_text s now₁ raw) now₂ raw).all_utterances
        = s.all_utterances ++ [(now₁, pyStrip raw)] ∧
      (process_text (process_text s now₁ raw) now₂ raw).summ_utts
        = s.summ_utts ++ [(now₁, pyStrip raw)] ∧
      (process_text (process_text s now₁ raw) now₂ raw).live_transcript
        = dequeAppend s.live_transcript (pyStrip raw)) := by
  refine ⟨fun he => by simp [process_text, he], fun hl => ?_, fun he hne => ?_⟩
  · by_cases he : (pyStrip raw).isEmpty
    · simp [process_text, he]
    · simp [process_text, he, hl]
  · have hmatch : (match s.last_text with
        | some t => pyStrip raw == t
        | none => false) = false := by
      cases h : s.last_text with
      | none => rfl
      | some t =>
          simp only [beq_eq_false_iff_ne, ne_eq]
          intro hc
          exact hne (hc ▸ h)
    have hfirst : process_text s now₁ raw =
        { s with
          last_text := some (pyStrip raw),
          live_transcript := dequeAppend s.live_transcript (pyStrip raw),
          all_utterances := s.all_utterances ++ [(now₁, pyStrip raw)],
          summ_utts := s.summ_utts ++ [(now₁, pyStrip raw)] } := by
      simp [process_text, he, hmatch]
    have hsecond : process_text (process_text s now₁ raw) now₂ raw
        = process_text s now₁ raw := by
      rw [hfirst]
      simp [process_text, he]
    exact ⟨hsecond, by rw [hsecond, hfirst], by rw [hsecond, hfirst], by rw [hsecond, hfirst]⟩

/-- C3 witness: blank input is a no-op on the initial state, and appending
`"สวัสดีครับ"` twice in direct succession yields exactly one log entry. -/
theorem claim_C3_witness :
    process_text initState 0 " " = initState ∧
    (process_text (process_text initState 0 "สวัสดีครับ") 1 "สวัสดีครับ").all_utterances
      = [(0, "สวัสดีครับ")] := by
  refine ⟨(claim_C3 initState 0 0 " ").1 (by decide), ?_⟩
  have h := ((claim_C3 initState 0 1 "สวัสดีครับ").2.2 (by decide) (by decide)).2.1
  rw [h]
  decide

/-- C4 counterexample: the suffix invariant of the recent window holds
after one accepted utterance but is broken by the `sr.RequestError` branch
of `_audio_callback`, which appends a connection-error notice to the
window only — an operation of the capture path (meeting_realtime.py:290-293). -/
theorem claim_C4_counterexample :
    windowInv (process_text initState 0 "ก") ∧
    ¬ windowInv (audio_callback (process_text initState 0 "ก") 1
        (RecogResult.requestError "x")) := by
  have h1 : process_text initState 0 "ก"
      = { live_transcript := ["ก"], all_utterances := [(0, "ก")],
          last_text := some "ก", summ_utts := [(0, "ก")], listening := true } := by
    decide
  have h2 : audio_callback (process_text initState 0 "ก") 1 (RecogResult.requestError "x")
      = { live_transcript := ["ก", "[ข้อผิดพลาดเชื่อมต่อ: x]"], all_utterances := [(0, "ก")],
          last_text := some "ก", summ_utts := [(0, "ก")], listening := true } := by
    decide
  constructor
  · rw [h1]
    exact ⟨⟨[], rfl⟩, by decide⟩
  · rw [h2]
    rintro ⟨⟨t, ht⟩, -⟩
    have hlen := congrArg List.length ht
    simp at hlen

/-- C4 amended: the recent-window-is-a-suffix invariant is preserved by
`_process_text`, hence by every successful-recognition callback and by the
unintelligible-audio branch; only the `sr.RequestError` notice branch can
break it. -/
theorem claim_C4_amended (s : AugState) (now : Nat) (raw : String)
    (h : windowInv s) :
    windowInv (process_text s now raw) ∧
    windowInv (audio_callback s now (RecogResult.ok raw)) ∧
    windowInv (audio_callback s now RecogResult.unknownValue) := by
  have hmain : windowInv (process_text s now raw) := by
    obtain ⟨⟨t, ht⟩, hlen⟩ := h
    unfold process_text
    by_cases he : (pyStrip raw).isEmpty
    · simpa [he] using ⟨⟨t, ht⟩, hlen⟩
    · cases hm : (match s.last_text with
          | some t => pyStrip raw == t
          | none => false) with
      | true => simpa [he, hm] using ⟨⟨t, ht⟩, hlen⟩
      | false =>
          simp only [he, hm, Bool.false_eq_true, if_false]
          constructor
          · refine ⟨t ++ (s.live_transcript ++ [pyStrip raw]).take
              ((s.live_transcript ++ [pyStrip raw]).length - 5), ?_⟩
            simp only [dequeAppend, List.append_assoc, List.take_append_drop,
              List.map_append, ← ht]
            simp
          · simp only [dequeAppend, List.length_drop]
            omega
  exact ⟨hmain, hmain, ⟨h.1, h.2⟩⟩

/-- C4 amended witness: the invariant is preserved when the first
utterance is processed from the initial state. -/
theorem claim_C4_amended_witness :
    windowInv (process_text initState 0 "สวัสดีครับ") :=
  (claim_C4_amended initState 0 "สวัสดีครับ" ⟨⟨[], rfl⟩, by decide⟩).1

/-- C5 counterexample: after the coordinator has signalled capture to stop
(`stop_listening(wait_for_stop=False)`), a late-arriving recognition
result is still appended to the full log — `_audio_callback` and
`_process_text` contain no shutdown gating. -/
theorem claim_C5_counterexample :
    (initiate_shutdown (process_text initState 0 "สวัสดีครับ")).listening = false ∧
    (audio_callback (initiate_shutdown (process_text initState 0 "สวัสดีครับ")) 1
        (RecogResult.ok "ขอบคุณครับ")).all_utterances
      ≠ (initiate_shutdown (process_text initState 0 "สวัสดีครับ")).all_utterances := by
  decide

/-- C5 amended: the capture path is independent of the shutdown signal —
a recognition callback arriving after shutdown behaves exactly as during
listening (accepted text is appended, rejected text is dropped), rather
than being unconditionally dropped. -/
theorem claim_C5_amended (s : AugState) (now : Nat) (r : RecogResult) :
    audio_callback (initiate_shutdown s) now r
      = initiate_shutdown (audio_callback s now r) := by
  cases r with
  | ok text =>
      simp only [audio_callback, process_text, initiate_shutdown]
      by_cases he : (pyStrip text).isEmpty
      · simp [he]
      · cases hm : s.last_text with
        | none => simp [he, hm]
        | some t =>
            by_cases hq : pyStrip text = t
            · simp [he, hm, hq]
            · simp [he, hm, hq]
  | unknownValue => rfl
  | requestError e => rfl

/-- C1 counterexample: with the Gemini path enabled (library present and
API key set) `summarize` does not fall back to the heuristic result when
the call raises — the unguarded `genai.configure(api_key==api_key)` call
raises before the guarded block and the error propagates, so the caller
receives no summary at all. -/
theorem claim_C1_counterexample :
    summarize fallbackWords fallbackSents { hasGemini := true, apiKeySet := true } true []
      = Except.error PyError.typeError ∧
    ∀ r : SummarizeResult,
      summarize fallbackWords fallbackSents { hasGemini := true, apiKeySet := true } true []
        ≠ Except.ok r := by
  refine ⟨rfl, fun r h => ?_⟩
  simp [summarize, summarize_with_gemini] at h

/-- C1 amended: when the Gemini library is absent or no API key is
configured, `summarize` returns exactly the heuristic result
`summarize_offline` and no error reaches the caller; when the Gemini path
is enabled, however, the unguarded configure call (meeting_realtime.py:156,
outside the `try`) raises, and the `TypeError` propagates to the caller
instead of triggering the fallback. -/
theorem claim_C1_amended (tok sentf : String → List String) (env : GeminiEnv)
    (uts : Utterances) :
    (env.hasGemini = false ∨ env.apiKeySet = false →
       summarize tok sentf env true uts
         = Except.ok (SummarizeResult.offline (summarize_offline tok sentf uts))) ∧
    (env.hasGemini = true → env.apiKeySet = true →
       summarize tok sentf env true uts = Except.error PyError.typeError) := by
  constructor
  · rintro (h | h) <;> simp [summarize, summarize_with_gemini, h]
  · intro h1 h2
    simp [summarize, summarize_with_gemini, h1, h2]

/-- C1 amended witness: with the library absent the fallback fires on the
empty log, and with the path enabled the error escapes. -/
theorem claim_C1_witness :
    summarize fallbackWords fallbackSents { hasGemini := false, apiKeySet := true } true []
      = Except.ok (SummarizeResult.offline (summarize_offline fallbackWords fallbackSents [])) ∧
    summarize fallbackWords fallbackSents { hasGemini := true, apiKeySet := true } true []
      = Except.error PyError.typeError :=
  ⟨(claim_C1_amended fallbackWords fallbackSents
      { hasGemini := false, apiKeySet := true } []).1 (Or.inl rfl),
   (claim_C1_amended fallbackWords fallbackSents
      { hasGemini := true, apiKeySet := true } []).2 rfl rfl⟩

/-- C9.
For the single-utterance log `[(0, "คุณสมชายต้องทำรายงานภายใน 3 วัน")]`,
the heuristic summary (with the fallback tokenizer/splitter) contains
exactly one action item; its assignee (first honorific pattern match)
contains "คุณสมชาย", its due (first deadline pattern match) contains
"ภายใน 3 วัน", and its task is the sentence verbatim. -/
theorem claim_C9 :
    (summarize_offline fallbackWords fallbackSents
        [(0, "คุณสมชายต้องทำรายงานภายใน 3 วัน")]).action_items
      = [{ assignee := "คุณสมชายต้องทำรายงานภายใน",
           task := "คุณสมชายต้องทำรายงานภายใน 3 วัน",
           due := "ภายใน 3 วัน" }] ∧
    pyIn "คุณสมชาย" "คุณสมชายต้องทำรายงานภายใน" = true ∧
    pyIn "ภายใน 3 วัน" "ภายใน 3 วัน" = true := by
  decide

/-- The decisions bucket of the classification loop is exactly the
decision-trigger filter of the sentence stream. -/
theorem classify_decisions (sents : List String) :
    (classify sents).1 = sents.filter (fun s => match_any s decision_triggers) := by
  induction sents with
  | nil => rfl
  | cons s rest ih =>
      simp only [classify, List.filter_cons]
      cases h : match_any s decision_triggers <;> simp [h, ih]

/-- The action bucket of the classification loop is exactly the
action-trigger filter of the sentence stream, mapped through the
action-item constructor. -/
theorem classify_actions (sents : List String) :
    (classify sents).2.1
      = (sents.filter (fun s => match_any s action_triggers)).map mkActionItem := by
  induction sents with
  | nil => rfl
  | cons s rest ih =>
      simp only [classify, List.filter_cons]
      cases h : match_any s action_triggers <;> simp [h, ih]

/-- The risk bucket of the classification loop is exactly the
risk-trigger filter of the sentence stream. -/
theorem classify_risks (sents : List String) :
    (classify sents).2.2 = sents.filter (fun s => match_any s risk_triggers) := by
  induction sents with
  | nil => rfl
  | cons s rest ih =>
      simp only [classify, List.filter_cons]
      cases h : match_any s risk_triggers <;> simp [h, ih]

/-- Each occurrence of an action-matching sentence contributes exactly one
action item whose task is that sentence. -/
theorem actionTaskCount (s : String) (hs : match_any s action_triggers = true) :
    ∀ l : List String,
      (((l.filter (fun x => match_any x action_triggers)).map mkActionItem).filter
          (fun a => a.task == s)).length = l.count s := by
  intro l
  induction l with
  | nil => rfl
  | cons x xs ih =>
      by_cases hx : x = s
      · subst hx
        simp [List.filter_cons, hs, mkActionItem, List.count_cons, ih]
      · simp only [List.filter_cons]
        cases hax : match_any x action_triggers <;>
          simp [mkActionItem, hx, List.count_cons, ih, Ne.symm hx]

/-- C8.
Classification is non-exclusive: every sentence of the stream is tested
independently against the three trigger vocabularies; each occurrence of a
sentence matching the decision set appears in the decisions bucket, each
occurrence of one matching the action set produces exactly one action
item with that task, and likewise for risks — and the three fields of the
final document are the (capped) buckets. -/
theorem claim_C8 (tok sentf : String → List String) (uts : Utterances) (s : String)
    (hmem : s ∈ sentenceStream sentf uts) :
    (match_any s decision_triggers = true →
       s ∈ (classify (sentenceStream sentf uts)).1 ∧
       (classify (sentenceStream sentf uts)).1.count s
         = (sentenceStream sentf uts).count s) ∧
    (match_any s action_triggers = true →
       ((classify (sentenceStream sentf uts)).2.1.filter (fun a => a.task == s)).length
         = (sentenceStream sentf uts).count s) ∧
    (match_any s risk_triggers = true →
       s ∈ (classify (sentenceStream sentf uts)).2.2 ∧
       (classify (sentenceStream sentf uts)).2.2.count s
         = (sentenceStream sentf uts).count s) ∧
    (summarize_offline tok sentf uts).decisions
      = (classify (sentenceStream sentf uts)).1.take 10 ∧
    (summarize_offline tok sentf uts).action_items
      = (classify (sentenceStream sentf uts)).2.1.take 20 ∧
    (summarize_offline tok sentf uts).risks_or_followups
      = (classify (sentenceStream sentf uts)).2.2.take 10 := by
  refine ⟨fun hd => ?_, fun ha => ?_, fun hr => ?_, rfl, rfl, rfl⟩
  · rw [classify_decisions]
    exact ⟨List.mem_filter.mpr ⟨hmem, hd⟩, List.count_filter hd⟩
  · rw [classify_actions]
    exact actionTaskCount s ha _
  · rw [classify_risks]
    exact ⟨List.mem_filter.mpr ⟨hmem, hr⟩, List.count_filter hr⟩

/-- C8 witness: the sentence "ตัดสินใจมอบหมายรอ" matches a decision
trigger, an action trigger and a risk trigger, and lands once in each
bucket. -/
theorem claim_C8_witness :
    "ตัดสินใจมอบหมายรอ" ∈ sentenceStream fallbackSents [(0, "ตัดสินใจมอบหมายรอ")] ∧
    "ตัดสินใจมอบหมายรอ" ∈
      (classify (sentenceStream fallbackSents [(0, "ตัดสินใจมอบหมายรอ")])).1 ∧
    ((classify (sentenceStream fallbackSents [(0, "ตัดสินใจมอบหมายรอ")])).2.1.filter
        (fun a => a.task == "ตัดสินใจมอบหมายรอ")).length
      = (sentenceStream fallbackSents [(0, "ตัดสินใจมอบหมายรอ")]).count "ตัดสินใจมอบหมายรอ" ∧
    "ตัดสินใจมอบหมายรอ" ∈
      (classify (sentenceStream fallbackSents [(0, "ตัดสินใจมอบหมายรอ")])).2.2 := by
  have h := claim_C8 fallbackWords fallbackSents [(0, "ตัดสินใจมอบหมายรอ")]
    "ตัดสินใจมอบหมายรอ" (by decide)
  exact ⟨by decide, (h.1 (by decide)).1, h.2.1 (by decide), (h.2.2.1 (by decide)).1⟩

/-- The frequency loop equals folding `bump` over the kept tokens. -/
theorem freqFold_eq_foldl :
    ∀ (stream : List String) (acc : List (String × Nat)),
      freqFold stream acc = (stream.filter keepTok).foldl bump acc := by
  intro stream
  induction stream with
  | nil => intro acc; rfl
  | cons w ws ih =>
      intro acc
      by_cases hstop : topic_stopwords.contains w = true
      · have hk : keepTok w = false := by unfold keepTok; rw [hstop]; rfl
        rw [show freqFold (w :: ws) acc = freqFold ws acc by
          simp only [freqFold, if_pos hstop]]
        rw [List.filter_cons, if_neg (by simp [hk]), ih]
      · by_cases hlen : w.length < 2
        · have hk : keepTok w = false := by
            simp only [keepTok, Bool.and_eq_false_iff]
            right
            simpa using Nat.not_le.mpr hlen
          rw [show freqFold (w :: ws) acc = freqFold ws acc by
            simp only [freqFold, if_neg hstop, if_pos hlen]]
          rw [List.filter_cons, if_neg (by simp [hk]), ih]
        · have hk : keepTok w = true := by
            simp only [keepTok, Bool.and_eq_true]
            exact ⟨by simpa using hstop, by simpa using Nat.not_lt.mp hlen⟩
          rw [show freqFold (w :: ws) acc = freqFold ws (bump acc w) by
            simp only [freqFold, if_neg hstop, if_neg hlen]]
          rw [List.filter_cons, if_pos (by simp [hk]), List.foldl_cons, ih]

/-- Membership in the first-occurrence fold. -/
theorem mem_foldl_addNew :
    ∀ (p : List String) (acc : List String) (x : String),
      x ∈ p.foldl addNew acc ↔ x ∈ acc ∨ x ∈ p := by
  intro p
  induction p with
  | nil => simp
  | cons w ws ih =>
      intro acc x
      rw [List.foldl_cons, ih]
      unfold addNew
      by_cases hw : acc.contains w = true
      · have hmem : w ∈ acc := by simpa using hw
        rw [if_pos hw]
        simp only [List.mem_cons]
        constructor
        · rintro (h | h)
          · exact Or.inl h
          · exact Or.inr (Or.inr h)
        · rintro (h | h | h)
          · exact Or.inl h
          · exact Or.inl (h ▸ hmem)
          · exact Or.inr h
      · rw [if_neg hw]
        simp only [List.mem_append, List.mem_singleton, List.mem_cons]
        tauto

/-- The first-occurrence fold keeps its accumulator duplicate-free. -/
theorem nodup_foldl_addNew :
    ∀ (p : List String) (acc : List String), acc.Nodup → (p.foldl addNew acc).Nodup := by
  intro p
  induction p with
  | nil => exact fun acc h => h
  | cons w ws ih =>
      intro acc hacc
      rw [List.foldl_cons]
      apply ih
      unfold addNew
      by_cases hw : acc.contains w = true
      · rwa [if_pos hw]
      · rw [if_neg hw]
        have hnot : w ∉ acc := by simpa using hw
        simp [List.nodup_append, hacc, hnot]

/-- Computing `firstOcc` of a snoc: append the word unless already present. -/
theorem firstOcc_snoc (p : List String) (w : String) :
    firstOcc (p ++ [w]) = addNew (firstOcc p) w := by
  simp [firstOcc, List.foldl_append]

/-- Applying `bump` on a table without the key appends a fresh count of 1. -/
theorem bump_of_not_mem_keys :
    ∀ (l : List (String × Nat)) (w : String), (∀ kn ∈ l, kn.1 ≠ w) →
      bump l w = l ++ [(w, 1)] := by
  intro l
  induction l with
  | nil => intro w _; rfl
  | cons kn rest ih =>
      intro w h
      obtain ⟨k, n⟩ := kn
      have hk : k ≠ w := h (k, n) (List.mem_cons_self _ _)
      simp [bump, hk, ih w (fun x hx => h x (List.mem_cons_of_mem _ hx))]

/-- Applying `bump` on a table over duplicate-free keys containing `w` increments
exactly the entry of `w`. -/
theorem bump_map_mem :
    ∀ (ks : List String) (c : String → Nat) (w : String), w ∈ ks → ks.Nodup →
      bump (ks.map (fun k => (k, c k))) w
        = ks.map (fun k => (k, if k = w then c k + 1 else c k)) := by
  intro ks
  induction ks with
  | nil => intro c w hw _; cases hw
  | cons k rest ih =>
      intro c w hw hnd
      by_cases hk : k = w
      · subst hk
        have hnot : k ∉ rest := (List.nodup_cons.mp hnd).1
        simp only [List.map_cons, bump, eq_self_iff_true, if_true]
        congr 1
        apply List.map_congr_left
        intro a ha
        rw [if_neg (fun h : a = k => hnot (h ▸ ha))]
      · have hw' : w ∈ rest := by
          cases List.mem_cons.mp hw with
          | inl h => exact absurd h.symm hk
          | inr h => exact h
        simp [bump, hk, ih c w hw' (List.nodup_cons.mp hnd).2]

/-- Key lemma: appending one kept token to the processed stream updates the
first-occurrence frequency table exactly as one `bump` step. -/
theorem freqTable_snoc (p : List String) (w : String) :
    freqTable (p ++ [w]) = bump (freqTable p) w := by
  have hmemiff : ∀ x, x ∈ firstOcc p ↔ x ∈ p := by
    intro x
    simpa using mem_foldl_addNew p [] x
  have hnd : (firstOcc p).Nodup := nodup_foldl_addNew p [] List.nodup_nil
  by_cases hw : w ∈ p
  · have hwf : w ∈ firstOcc p := (hmemiff w).mpr hw
    have hcont : (firstOcc p).contains w = true := by simpa using hwf
    rw [freqTable, firstOcc_snoc, addNew, if_pos hcont]
    rw [freqTable, bump_map_mem (firstOcc p) (fun k => p.count k) w hwf hnd]
    apply List.map_congr_left
    intro k _
    rw [List.count_append, List.count_singleton']
    by_cases hk : k = w
    · subst hk
      rw [if_pos rfl, if_pos rfl]
    · rw [if_neg (fun h : w = k => hk h.symm), if_neg hk, Nat.add_zero]
  · have hwf : w ∉ firstOcc p := fun h => hw ((hmemiff w).mp h)
    have hcont : ¬((firstOcc p).contains w = true) := by simpa using hwf
    rw [freqTable, firstOcc_snoc, addNew, if_neg hcont]
    rw [List.map_append, List.map_singleton]
    rw [freqTable, bump_of_not_mem_keys]
    · congr 1
      · apply List.map_congr_left
        intro k hk
        have hkp : k ∈ p := (hmemiff k).mp hk
        have hkw : w ≠ k := fun h => hw (h ▸ hkp)
        rw [List.count_append, List.count_singleton', if_neg hkw, Nat.add_zero]
      · rw [List.count_append, List.count_singleton', if_pos rfl,
          List.count_eq_zero_of_not_mem hw]
    · intro kn hkn
      obtain ⟨k, hk, hkeq⟩ := List.mem_map.mp hkn
      have hk1 : kn.1 = k := by rw [← hkeq]
      rw [hk1]
      exact fun h => hw (h ▸ (hmemiff k).mp hk)

/-- Folding `bump` from the empty dict builds the first-occurrence
frequency table. -/
theorem foldl_bump_eq_freqTable : ∀ l : List String, l.foldl bump [] = freqTable l := by
  intro l
  induction l using List.reverseRecOn with
  | nil => rfl
  | append_singleton p w ih => rw [List.foldl_append, List.foldl_cons, List.foldl_nil,
      ih, ← freqTable_snoc]

/-- C6.
The topics field equals the spec's pipeline applied to the token stream of
the newline-joined utterance texts: filter out stop-words and tokens
shorter than 2 characters, count frequencies, rank descending by count
with ties broken by first occurrence order in the token stream, take the
first 6. -/
theorem claim_C6 (tok sentf : String → List String) (uts : Utterances) :
    (summarize_offline tok sentf uts).topics = specTopics (thai_words tok (allText uts)) := by
  show extract_topics tok (allText uts) 6 = _
  rw [extract_topics, specTopics, freqFold_eq_foldl, foldl_bump_eq_freqTable]

/-- Dropping a prefix by `p` is idempotent. -/
theorem dropWhile_dropWhile (p : Char → Bool) :
    ∀ l : List Char, (l.dropWhile p).dropWhile p = l.dropWhile p := by
  intro l
  induction l with
  | nil => rfl
  | cons c cs ih =>
      by_cases h : p c
      · rw [List.dropWhile_cons_of_pos h, ih]
      · rw [List.dropWhile_cons_of_neg h, List.dropWhile_cons_of_neg h]

/-- If a list is already `dropWhile`-clean, so is any of its front parts. -/
theorem dropWhile_of_append_self (p : Char → Bool) :
    ∀ u v : List Char, (u ++ v).dropWhile p = u ++ v → u.dropWhile p = u := by
  intro u v h
  cases u with
  | nil => rfl
  | cons c cs =>
      by_cases hc : p c
      · exfalso
        rw [List.cons_append, List.dropWhile_cons_of_pos hc] at h
        have hlen := congrArg List.length h
        rw [List.length_cons] at hlen
        have hle := (List.dropWhile_sublist (l := cs ++ v) p).length_le
        omega
      · rw [List.dropWhile_cons_of_neg hc]

/-- Stripping with `pyStripL` is idempotent. -/
theorem pyStripL_idem (l : List Char) : pyStripL (pyStripL l) = pyStripL l := by
  unfold pyStripL
  set p := isSpaceChar with hp
  set a := l.dropWhile p with ha
  set b := a.reverse.dropWhile p with hb
  have hafix : a.dropWhile p = a := by rw [ha]; exact dropWhile_dropWhile p l
  have hdecomp : a = b.reverse ++ (a.reverse.takeWhile p).reverse := by
    conv_lhs => rw [← List.reverse_reverse a,
      ← List.takeWhile_append_dropWhile (p := p) (l := a.reverse)]
    rw [List.reverse_append, ← hb]
  have hfront : b.reverse.dropWhile p = b.reverse := by
    apply dropWhile_of_append_self p b.reverse ((a.reverse.takeWhile p).reverse)
    rw [← hdecomp, hafix]
  have hbfix : b.dropWhile p = b := by rw [hb]; exact dropWhile_dropWhile p a.reverse
  rw [hfront, List.reverse_reverse, hbfix]

/-- Python `strip()` is idempotent. -/
theorem pyStrip_idem (s : String) : pyStrip (pyStrip s) = pyStrip s := by
  simp [pyStrip, pyStripL_idem]

end Meeting

namespace PW

/-- Every Thai-branch candidate keyword is longer than 1 character even
after (re-)stripping. -/
theorem thaiCands_len (tags : List (String × String)) (x : String)
    (hx : x ∈ thaiCands tags) : 1 < (Meeting.pyStrip x).length := by
  obtain ⟨p, hp, hpx⟩ := List.mem_map.mp hx
  have hcond := (List.mem_filter.mp hp).2
  have hlen : 1 < (Meeting.pyStrip p.1).length := by
    have := (Bool.and_eq_true _ _).mp hcond
    simpa using this.2
  rw [← hpx, Meeting.pyStrip_idem]
  exact hlen

/-- The dedup loop returns a subsequence of its input. -/
theorem dedupLower_sublist :
    ∀ (seen l : List String), List.Sublist (dedupLowerAux seen l) l := by
  intro seen l
  induction l generalizing seen with
  | nil => exact List.Sublist.refl []
  | cons k ks ih =>
      unfold dedupLowerAux
      by_cases h : seen.contains (pyLower k) = true
      · rw [if_pos h]
        exact (ih seen).cons k
      · rw [if_neg h]
        exact (ih (pyLower k :: seen)).cons₂ k

/-- No keyword surviving the dedup loop has its lowercase form in `seen`. -/
theorem dedupLower_not_seen :
    ∀ (seen l : List String) (k : String), k ∈ dedupLowerAux seen l →
      ¬ seen.contains (pyLower k) = true := by
  intro seen l
  induction l generalizing seen with
  | nil => intro k hk; cases hk
  | cons w ws ih =>
      intro k hk
      unfold dedupLowerAux at hk
      by_cases h : seen.contains (pyLower w) = true
      · rw [if_pos h] at hk
        exact ih seen k hk
      · rw [if_neg h] at hk
        cases List.mem_cons.mp hk with
        | inl hkw => rw [hkw]; exact h
        | inr hmem =>
            have hbig := ih (pyLower w :: seen) k hmem
            intro hc
            exact hbig (by simp only [List.contains_cons]; rw [hc, Bool.or_true])

/-- The dedup loop output has pairwise distinct lowercase forms. -/
theorem dedupLower_pairwise :
    ∀ (seen l : List String),
      (dedupLowerAux seen l).Pairwise (fun a b => pyLower a ≠ pyLower b) := by
  intro seen l
  induction l generalizing seen with
  | nil => exact List.Pairwise.nil
  | cons w ws ih =>
      unfold dedupLowerAux
      by_cases h : seen.contains (pyLower w) = true
      · rw [if_pos h]
        exact ih seen
      · rw [if_neg h]
        refine List.Pairwise.cons ?_ (ih (pyLower w :: seen))
        intro b hb hcontra
        have hbig := dedupLower_not_seen (pyLower w :: seen) ws b hb
        exact hbig (by simp only [List.contains_cons]
                       rw [← hcontra]
                       simp)

/-- C10.
`extract_keywords` always returns at most 10 keywords and is total
(the bare `except` turns any tokenization/tagging failure into the
`text.split()[:10]` fallback); blank input yields `[]`; and on the Thai
success path the result is the candidate list deduplicated
case-insensitively preserving first-occurrence order (a subsequence of the
candidates with pairwise distinct lowercase forms), every returned keyword
being longer than 1 character after stripping. -/
theorem claim_C10 (tagger : String → Option (List (String × String)))
    (text language : String) :
    (extract_keywords tagger text language).length ≤ 10 ∧
    ((Meeting.pyStrip text).isEmpty = true → extract_keywords tagger text language = []) ∧
    (language = "th" → (Meeting.pyStrip text).isEmpty = false → tagger text = none →
       extract_keywords tagger text language = (pySplit text).take 10) ∧
    (language = "th" → (Meeting.pyStrip text).isEmpty = false →
       ∀ tags, tagger text = some tags →
       extract_keywords tagger text language
           = (dedupLowerAux [] (thaiCands tags)).take 10 ∧
       (∀ k ∈ extract_keywords tagger text language, 1 < (Meeting.pyStrip k).length) ∧
       (extract_keywords tagger text language).Pairwise
         (fun a b => pyLower a ≠ pyLower b) ∧
       List.Sublist (extract_keywords tagger text language) (thaiCands tags)) := by
  refine ⟨?_, fun he => by simp [extract_keywords, he], ?_, ?_⟩
  · unfold extract_keywords
    by_cases he : (Meeting.pyStrip text).isEmpty = true
    · simp [he]
    · rw [if_neg he]
      by_cases hl : language = "th"
      · rw [if_pos hl]
        cases htag : tagger text with
        | none => exact List.length_take_le _ _
        | some tags => exact List.length_take_le _ _
      · rw [if_neg hl]
        exact List.length_take_le _ _
  · intro hl he htag
    simp [extract_keywords, he, hl, htag]
  · intro hl he tags htag
    have hres : extract_keywords tagger text language
        = (dedupLowerAux [] (thaiCands tags)).take 10 := by
      simp [extract_keywords, he, hl, htag]
    refine ⟨hres, ?_, ?_, ?_⟩
    · intro k hk
      rw [hres] at hk
      have hk2 : k ∈ dedupLowerAux [] (thaiCands tags) :=
        (List.take_sublist _ _).mem hk
      exact thaiCands_len tags k ((dedupLower_sublist [] _).mem hk2)
    · rw [hres]
      exact (dedupLower_pairwise [] _).sublist (List.take_sublist _ _)
    · rw [hres]
      exact (List.take_sublist _ _).trans (dedupLower_sublist [] _)

/-- C10 witness: the tagging-failure fallback and the Thai success path on
concrete inputs. -/
theorem claim_C10_witness :
    extract_keywords (fun _ => none) "สวัสดี ครับ" "th" = ["สวัสดี", "ครับ"] ∧
    extract_keywords (fun _ => some [("ประชุม", "NOUN"), ("ประชุม", "NOUN"), ("ไป", "VERB")])
        "ประชุมไป" "th" = ["ประชุม", "ไป"] := by
  constructor
  · rw [(claim_C10 (fun _ => none) "สวัสดี ครับ" "th").2.2.1 rfl (by decide) rfl]
    decide
  · rw [((claim_C10 (fun _ => some [("ประชุม", "NOUN"), ("ประชุม", "NOUN"), ("ไป", "VERB")])
      "ประชุมไป" "th").2.2.2 rfl (by decide) _ rfl).1]
    decide

end PW
